import Mathlib

/-!
Shallow embedding of `src/delete_old_backups.py`, a single-file Python utility
that scans a directory tree for `.bak` files, deletes those older than an age
threshold, and logs a summary report.

Modelling choices:
* Timestamps are integers (seconds since the epoch).  `datetime` subtraction
  followed by `.days` is floor division of the difference by 86400 seconds
  (Python's `timedelta` normalises with floor semantics), embedded as
  `Int.fdiv`.
* The on-disk state is `FS := List (String × Nat)`: the regular files that
  currently exist, each with its size in bytes.
* Environment facts the script queries (`os.path.getctime`, whether the root
  is an existing directory, whether a file lies under the root, whether
  `os.remove` raises even though the file exists, e.g. permission denied) are
  oracle fields of a `World` record.
* `logging` output is embedded as a list of structured `LogEntry` values, one
  constructor per `logging.info` / `logging.error` call site, carrying the
  data interpolated into the Python message.  The Python side formats the
  byte total as an `MB` float; the entry carries the exact byte total, which
  is the quantity the claims speak about.
* An uncaught Python exception is an `Option PyError` result component:
  `osError` for the `os.path.getsize` probe on a missing path inside
  `generate_report`, `valueError` for `min()`/`max()` over an empty sequence.
-/

/-- One second-resolution timestamp, as used for `st_ctime` and `now`. -/
abbrev Timestamp := Int

/-- `(a - b).days` for Python datetimes `a`, `b` held as epoch seconds:
`timedelta` stores the (possibly negative) difference and `.days` is the
floor of the difference divided by one day. -/
def timedeltaDays (delta : Int) : Int :=
  Int.fdiv delta 86400

/-- The regular files currently on disk: each entry is a path with the file
size in bytes that `os.path.getsize` would report. -/
abbrev FS := List (String × Nat)

/-- `os.path.exists` for a regular file: some entry has this path. -/
def FS.existsPath (fs : FS) (p : String) : Bool :=
  fs.any (fun e => e.1 == p)

/-- `os.path.getsize`: the size of the entry at this path, or `none` when the
path no longer exists (in which case Python raises `OSError`). -/
def FS.getsize (fs : FS) (p : String) : Option Nat :=
  (fs.find? (fun e => e.1 == p)).map (fun e => e.2)

/-- Effect of a successful `os.remove`: the entry at this path is gone. -/
def FS.remove (fs : FS) (p : String) : FS :=
  fs.filter (fun e => e.1 != p)

/-- Everything the script observes about its environment besides the file
list itself. -/
structure World where
  /-- the regular files on disk, with sizes -/
  files : FS
  /-- `os.path.getctime` for each path -/
  ctime : String → Timestamp
  /-- whether a path names an existing directory (the `os.walk` root check:
  a missing or non-directory root makes `os.walk` yield nothing) -/
  dirExists : String → Bool
  /-- whether a file path lies beneath a given root directory -/
  under : String → String → Bool
  /-- whether `os.remove` on this path raises `OSError` even though the file
  exists (permission denied, I/O error) -/
  denied : String → Bool

/-- Uncaught exceptions the script can die with. -/
inductive PyError where
  | osError
  | valueError
  deriving DecidableEq, Repr

/-- One structured record per `logging.info` / `logging.error` call site of
the script, carrying the values interpolated into the message. -/
inductive LogEntry where
  | startingCleanup (dir : String)
  | ageThresholdLine (days : Int)
  | dryRunLine (b : Bool)
  | totalFound (n : Nat)
  | identifiedCount (n : Nat)
  | wouldDelete (path : String)
  | deleted (path : String)
  | errorDeleting (path : String)
  | reportHeader
  | reportDeletedCount (n : Nat)
  | reportTotalSize (bytes : Nat)
  | reportRemainingCount (n : Nat)
  | reportOldest (t : Timestamp)
  | reportNewest (t : Timestamp)
  | cleanupCompleted
  deriving DecidableEq, Repr

/-- Python `str.endswith(suffix)`, computed over the character sequence. -/
def endswith (s suffix : String) : Bool :=
  s.data.reverse.take suffix.data.length == suffix.data.reverse

/-- `get_backup_files` (lines 9-18): walk the tree under `backup_dir`; when
the root is missing or not a directory, `os.walk` (default `onerror=None`)
silently yields nothing.  Keep the files whose name ends in `.bak` and pair
each with its `os.path.getctime` timestamp. -/
def get_backup_files (w : World) (backup_dir : String) :
    List (String × Timestamp) :=
  if w.dirExists backup_dir then
    ((w.files.map (fun e => e.1)).filter
        (fun p => w.under backup_dir p && endswith p ".bak")).map
      (fun p => (p, w.ctime p))
  else []

/-- `identify_old_backups` (lines 20-27): keep the paths of the files whose
age in whole days strictly exceeds the threshold, `now` sampled once. -/
def identify_old_backups (backup_files : List (String × Timestamp))
    (age_threshold : Int) (current_time : Timestamp) : List String :=
  (backup_files.filter
      (fun bf => decide (age_threshold < timedeltaDays (current_time - bf.2)))).map
    (fun bf => bf.1)

/-- `delete_backups` (lines 29-39): walk the list; in dry-run mode only log
the intended action; otherwise `os.remove` inside `try/except OSError`, so a
failure (missing file or `denied` path) logs an error and the loop
continues.  The Python function returns `None`; the embedding returns the
effects: the resulting filesystem and the emitted log lines. -/
def delete_backups (fs : FS) (denied : String → Bool) :
    List String → Bool → FS × List LogEntry
  | [], _ => (fs, [])
  | p :: rest, dry_run =>
    if dry_run then
      let r := delete_backups fs denied rest dry_run
      (r.1, LogEntry.wouldDelete p :: r.2)
    else if FS.existsPath fs p && !denied p then
      let r := delete_backups (FS.remove fs p) denied rest dry_run
      (r.1, LogEntry.deleted p :: r.2)
    else
      let r := delete_backups fs denied rest dry_run
      (r.1, LogEntry.errorDeleting p :: r.2)

/-- `sum(os.path.getsize(f) for f in deleted_backups)` (line 45): probes the
current on-disk size of every path; `none` when any path no longer exists,
which is the point where Python raises `OSError`. -/
def sizeTotal (fs : FS) : List String → Option Nat
  | [] => some 0
  | p :: rest =>
    match FS.getsize fs p with
    | none => none
    | some s => (sizeTotal fs rest).map (fun t => s + t)

/-- `generate_report` (lines 41-48): log the header and the deleted count,
then the size total (raising `OSError` if a probed path is gone), the
remaining count, and `min`/`max` of the remaining creation times (raising
`ValueError` when `remaining_backups` is empty).  Returns the log lines
emitted before any exception together with the exception, if one was
raised. -/
def generate_report (fs : FS) (deleted_backups : List String)
    (remaining_backups : List (String × Timestamp)) :
    List LogEntry × Option PyError :=
  let l0 := [LogEntry.reportHeader,
             LogEntry.reportDeletedCount deleted_backups.length]
  match sizeTotal fs deleted_backups with
  | none => (l0, some PyError.osError)
  | some total =>
    let l1 := l0 ++ [LogEntry.reportTotalSize total,
                     LogEntry.reportRemainingCount remaining_backups.length]
    match remaining_backups.map (fun b => b.2) with
    | [] => (l1, some PyError.valueError)
    | t :: ts =>
      (l1 ++ [LogEntry.reportOldest (ts.foldl min t),
              LogEntry.reportNewest (ts.foldl max t)], none)

/-- `remaining_backups` as computed inline in `main` (line 63):
`[b for b in all_backups if b[0] not in old_backups]`. -/
def remaining_backups (all_backups : List (String × Timestamp))
    (old_backups : List String) : List (String × Timestamp) :=
  all_backups.filter (fun b => !(old_backups.contains b.1))

/-- `main` (lines 50-66; named `main_run` here since Lean reserves `main`): the pipeline, with `now` the single
`datetime.now()` sample taken inside `identify_old_backups`.  Returns the
final filesystem, the full log (`cleanupCompleted` only when no exception
escaped), and the uncaught exception, if any. -/
def main_run (w : World) (backup_dir : String) (age_threshold : Int)
    (dry_run : Bool) (now : Timestamp) :
    FS × List LogEntry × Option PyError :=
  let all_backups := get_backup_files w backup_dir
  let old_backups := identify_old_backups all_backups age_threshold now
  let d := delete_backups w.files w.denied old_backups dry_run
  let remaining := remaining_backups all_backups old_backups
  let r := generate_report d.1 old_backups remaining
  let log := [LogEntry.startingCleanup backup_dir,
              LogEntry.ageThresholdLine age_threshold,
              LogEntry.dryRunLine dry_run,
              LogEntry.totalFound all_backups.length,
              LogEntry.identifiedCount old_backups.length]
             ++ d.2 ++ r.1
  (d.1, log ++ (if r.2.isNone then [LogEntry.cleanupCompleted] else []), r.2)

/-- The path a per-file line of `delete_backups` speaks about, `none` for
the entries of other call sites. -/
def deleteEntryPath : LogEntry → Option String
  | LogEntry.wouldDelete p => some p
  | LogEntry.deleted p => some p
  | LogEntry.errorDeleting p => some p
  | _ => none

/-! ## Helper lemmas -/

theorem existsPath_iff (fs : FS) (p : String) :
    FS.existsPath fs p = true ↔ ∃ e ∈ fs, e.1 = p := by
  simp [FS.existsPath, List.any_eq_true]

theorem getsize_eq_none_iff (fs : FS) (p : String) :
    FS.getsize fs p = none ↔ FS.existsPath fs p = false := by
  constructor
  · intro h
    rw [Bool.eq_false_iff]
    intro hex
    rcases (existsPath_iff fs p).mp hex with ⟨e, he, hep⟩
    rcases Option.map_eq_none'.mp h with hfind
    have := List.find?_eq_none.mp hfind e he
    simp [hep] at this
  · intro h
    rcases hfind : List.find? (fun e => e.1 == p) fs with _ | e
    · simp [FS.getsize, hfind]
    · have hmem := List.mem_of_find?_eq_some hfind
      have hp : e.1 = p := by
        have := List.find?_some hfind
        simpa using this
      have : FS.existsPath fs p = true := (existsPath_iff fs p).mpr ⟨e, hmem, hp⟩
      rw [h] at this
      cases this

theorem existsPath_remove_self (fs : FS) (p : String) :
    FS.existsPath (FS.remove fs p) p = false := by
  rw [Bool.eq_false_iff]
  intro hex
  rcases (existsPath_iff _ _).mp hex with ⟨e, he, hep⟩
  rcases List.mem_filter.mp he with ⟨_, hne⟩
  simp [hep] at hne

theorem existsPath_remove_le (fs : FS) (p q : String) :
    FS.existsPath (FS.remove fs p) q = true → FS.existsPath fs q = true := by
  intro hex
  rcases (existsPath_iff _ _).mp hex with ⟨e, he, hep⟩
  exact (existsPath_iff _ _).mpr ⟨e, (List.mem_filter.mp he).1, hep⟩

/-- `delete_backups` never creates a file: a path existing afterwards
existed before. -/
theorem delete_backups_mono (denied : String → Bool) (ps : List String)
    (fs : FS) (d : Bool) (q : String) :
    FS.existsPath (delete_backups fs denied ps d).1 q = true →
      FS.existsPath fs q = true := by
  induction ps generalizing fs with
  | nil => intro h; exact h
  | cons p rest ih =>
    intro h
    by_cases hd : d
    · subst hd; simpa [delete_backups] using ih fs h
    · rw [Bool.not_eq_true] at hd
      subst hd
      by_cases hb : (FS.existsPath fs p && !denied p) = true
      · simp only [delete_backups, Bool.false_eq_true, if_false, hb, if_true] at h
        exact existsPath_remove_le fs p q (ih (FS.remove fs p) h)
      · simp only [delete_backups, Bool.false_eq_true, if_false, hb] at h
        exact ih fs h

/-- A path in the deletion list whose removal is not denied is gone from the
filesystem after a non-dry run (it is either removed, or it never existed). -/
theorem delete_backups_removes (denied : String → Bool) (ps : List String)
    (fs : FS) (p : String) (hmem : p ∈ ps) (hden : denied p = false) :
    FS.existsPath (delete_backups fs denied ps false).1 p = false := by
  induction ps generalizing fs with
  | nil => cases hmem
  | cons q rest ih =>
    rcases List.mem_cons.mp hmem with hq | hrest
    · subst hq
      by_cases hrest : p ∈ rest
      · by_cases hb : (FS.existsPath fs p && !denied p) = true
        · simpa [delete_backups, hb] using ih (FS.remove fs p) hrest
        · simpa [delete_backups, hb] using ih fs hrest
      · by_cases hex : FS.existsPath fs p = true
        · have hb : (FS.existsPath fs p && !denied p) = true := by
            simp [hex, hden]
          simp only [delete_backups, Bool.false_eq_true, if_false, hb, if_true]
          rw [Bool.eq_false_iff]
          intro habs
          have := delete_backups_mono denied rest (FS.remove fs p) false p habs
          rw [existsPath_remove_self] at this
          cases this
        · rw [Bool.not_eq_true] at hex
          have hb : (FS.existsPath fs p && !denied p) = false := by
            simp [hex]
          simp only [delete_backups, Bool.false_eq_true, if_false, hb]
          rw [Bool.eq_false_iff]
          intro habs
          have := delete_backups_mono denied rest fs false p habs
          rw [hex] at this
          cases this
    · rcases Bool.eq_false_or_eq_true (FS.existsPath fs q && !denied q) with hb | hb
      · simpa [delete_backups, hb] using ih (FS.remove fs q) hrest
      · simpa [delete_backups, hb] using ih fs hrest

/-- If some probed path is missing, the whole size sum raises. -/
theorem sizeTotal_none_of_missing (fs : FS) (ps : List String) (p : String)
    (hmem : p ∈ ps) (hgone : FS.existsPath fs p = false) :
    sizeTotal fs ps = none := by
  induction ps with
  | nil => cases hmem
  | cons q rest ih =>
    rcases List.mem_cons.mp hmem with hq | hrest
    · subst hq
      have : FS.getsize fs p = none := (getsize_eq_none_iff fs p).mpr hgone
      simp [sizeTotal, this]
    · rcases hq : FS.getsize fs q with _ | s
      · simp [sizeTotal, hq]
      · simp [sizeTotal, hq, ih hrest]

/-- The per-file log of `delete_backups` carries exactly the input paths, in
input order, whatever the filesystem, the failures and the mode. -/
theorem delete_backups_log_paths (denied : String → Bool) (ps : List String)
    (fs : FS) (d : Bool) :
    (delete_backups fs denied ps d).2.filterMap deleteEntryPath = ps := by
  induction ps generalizing fs with
  | nil => simp [delete_backups]
  | cons p rest ih =>
    by_cases hd : d
    · subst hd
      simp [delete_backups, List.filterMap_cons, deleteEntryPath, ih fs]
    · rw [Bool.not_eq_true] at hd
      subst hd
      rcases Bool.eq_false_or_eq_true (FS.existsPath fs p && !denied p) with hb | hb
      · simp [delete_backups, hb, List.filterMap_cons, deleteEntryPath,
              ih (FS.remove fs p)]
      · simp [delete_backups, hb, List.filterMap_cons, deleteEntryPath, ih fs]

/-- Every line `delete_backups` emits is one of its three per-file lines. -/
theorem delete_backups_log_shape (denied : String → Bool) (ps : List String)
    (fs : FS) (d : Bool) (e : LogEntry)
    (hmem : e ∈ (delete_backups fs denied ps d).2) :
    ∃ q, deleteEntryPath e = some q := by
  induction ps generalizing fs with
  | nil => simp [delete_backups] at hmem
  | cons p rest ih =>
    by_cases hd : d
    · subst hd
      rcases (by simpa [delete_backups] using hmem :
          e = LogEntry.wouldDelete p ∨ e ∈ (delete_backups fs denied rest true).2) with
        he | he
      · exact ⟨p, by simp [he, deleteEntryPath]⟩
      · exact ih fs he
    · rw [Bool.not_eq_true] at hd
      subst hd
      rcases Bool.eq_false_or_eq_true (FS.existsPath fs p && !denied p) with hb | hb
      · rcases (by simpa [delete_backups, hb] using hmem :
            e = LogEntry.deleted p ∨
              e ∈ (delete_backups (FS.remove fs p) denied rest false).2) with he | he
        · exact ⟨p, by simp [he, deleteEntryPath]⟩
        · exact ih (FS.remove fs p) he
      · rcases (by simpa [delete_backups, hb] using hmem :
            e = LogEntry.errorDeleting p ∨
              e ∈ (delete_backups fs denied rest false).2) with he | he
        · exact ⟨p, by simp [he, deleteEntryPath]⟩
        · exact ih fs he

/-- `delete_backups` processes an appended list sequentially: the second part
runs on the filesystem the first part leaves behind, and the logs
concatenate. -/
theorem delete_backups_append (denied : String → Bool) (xs ys : List String)
    (fs : FS) (d : Bool) :
    delete_backups fs denied (xs ++ ys) d =
      ((delete_backups (delete_backups fs denied xs d).1 denied ys d).1,
       (delete_backups fs denied xs d).2 ++
         (delete_backups (delete_backups fs denied xs d).1 denied ys d).2) := by
  induction xs generalizing fs with
  | nil => simp [delete_backups]
  | cons p rest ih =>
    by_cases hd : d
    · subst hd
      simp [delete_backups, ih fs]
    · rw [Bool.not_eq_true] at hd
      subst hd
      rcases Bool.eq_false_or_eq_true (FS.existsPath fs p && !denied p) with hb | hb
      · simp [delete_backups, hb, ih (FS.remove fs p)]
      · simp [delete_backups, hb, ih fs]

theorem contains_iff_mem (ps : List String) (x : String) :
    ps.contains x = true ↔ x ∈ ps := by
  simp [List.contains, List.elem_iff]

/-- Sufficient condition for a path to be classified old. -/
theorem mem_identify_of (files : List (String × Timestamp)) (thr : Int)
    (now : Timestamp) (b : String × Timestamp) (hb : b ∈ files)
    (hpred : thr < timedeltaDays (now - b.2)) :
    b.1 ∈ identify_old_backups files thr now := by
  refine List.mem_map.mpr ⟨b, List.mem_filter.mpr ⟨hb, ?_⟩, rfl⟩
  simpa using hpred

/-- When discovered paths are pairwise distinct, membership in the old list
is exactly the strict age comparison of the entry itself. -/
theorem mem_identify_iff (files : List (String × Timestamp)) (thr : Int)
    (now : Timestamp) (b : String × Timestamp) (hb : b ∈ files)
    (hnd : (files.map Prod.fst).Nodup) :
    b.1 ∈ identify_old_backups files thr now ↔
      thr < timedeltaDays (now - b.2) := by
  constructor
  · intro hmem
    rcases List.mem_map.mp hmem with ⟨c, hc, hcb⟩
    rcases List.mem_filter.mp hc with ⟨hcf, hcp⟩
    have : c = b := List.inj_on_of_nodup_map hnd hcf hb hcb
    subst this
    simpa using hcp
  · exact mem_identify_of files thr now b hb

theorem mem_remaining_iff (all_backups : List (String × Timestamp))
    (old_backups : List String) (b : String × Timestamp) :
    b ∈ remaining_backups all_backups old_backups ↔
      b ∈ all_backups ∧ b.1 ∉ old_backups := by
  rw [remaining_backups, List.mem_filter]
  constructor
  · rintro ⟨h1, h2⟩
    refine ⟨h1, fun hmem => ?_⟩
    rw [Bool.not_eq_eq_eq_not, Bool.not_true, Bool.eq_false_iff] at h2
    exact h2 ((contains_iff_mem _ _).mpr hmem)
  · rintro ⟨h1, h2⟩
    refine ⟨h1, ?_⟩
    rw [Bool.not_eq_eq_eq_not, Bool.not_true, Bool.eq_false_iff]
    intro hc
    exact h2 ((contains_iff_mem _ _).mp hc)

/-- An existing `.bak` file under an existing root is discovered, paired with
its ctime. -/
theorem mem_get_backup_files (w : World) (root p : String)
    (hdir : w.dirExists root = true) (hex : FS.existsPath w.files p = true)
    (hunder : w.under root p = true) (hsuf : endswith p ".bak" = true) :
    (p, w.ctime p) ∈ get_backup_files w root := by
  rcases (existsPath_iff _ _).mp hex with ⟨e, he, hep⟩
  rw [get_backup_files, if_pos hdir]
  refine List.mem_map.mpr ⟨p, List.mem_filter.mpr ⟨?_, ?_⟩, rfl⟩
  · exact List.mem_map.mpr ⟨e, he, hep⟩
  · simp [hunder, hsuf]

/-! ## Claim theorems -/

/-- C9: under `dryRun = true` the Deletion Executor leaves the filesystem
exactly as it was — every file (in the old list or not) still exists — and
the only effect is one "Would delete" line per file, in order. -/
theorem dry_run_no_mutation (fs : FS) (denied : String → Bool)
    (ps : List String) :
    delete_backups fs denied ps true = (fs, ps.map LogEntry.wouldDelete) := by
  induction ps with
  | nil => simp [delete_backups]
  | cons p rest ih => simp [delete_backups, ih]

/-- C7 (on the code as written): the executor's only record of outcomes is
its log, which does carry one per-file line per input path, in input order;
the Python function itself returns `None`, not a sequence of outcomes. -/
theorem delete_backups_one_line_per_file (fs : FS) (denied : String → Bool)
    (ps : List String) (dry_run : Bool) :
    (delete_backups fs denied ps dry_run).2.filterMap deleteEntryPath = ps :=
  delete_backups_log_paths denied ps fs dry_run

/-- C1: when the remaining (kept) list is empty, `generate_report` does not
report absence: it logs the header, the deleted count, the size total and
the remaining count, then raises `ValueError` computing `min()` over the
empty sequence of creation times. -/
theorem generate_report_empty_remaining_raises (fs : FS)
    (deleted_backups : List String) (total : Nat)
    (hsum : sizeTotal fs deleted_backups = some total) :
    generate_report fs deleted_backups [] =
      ([LogEntry.reportHeader,
        LogEntry.reportDeletedCount deleted_backups.length,
        LogEntry.reportTotalSize total,
        LogEntry.reportRemainingCount 0],
       some PyError.valueError) := by
  simp [generate_report, hsum]

/-- C1 witness: the empty run. -/
theorem generate_report_empty_remaining_raises_witness :
    generate_report [] [] [] =
      ([LogEntry.reportHeader, LogEntry.reportDeletedCount 0,
        LogEntry.reportTotalSize 0, LogEntry.reportRemainingCount 0],
       some PyError.valueError) :=
  generate_report_empty_remaining_raises [] [] 0 rfl

/-- C4: a discovered file is classified old exactly when its age in whole
days strictly exceeds the threshold, and a file created exactly
`age_threshold` days before the once-sampled `now` lands in the kept
(remaining) list. -/
theorem identify_old_strict_threshold (files : List (String × Timestamp))
    (thr : Int) (now : Timestamp) (p : String) (t : Timestamp)
    (hmem : (p, t) ∈ files) (hnd : (files.map Prod.fst).Nodup) :
    (p ∈ identify_old_backups files thr now ↔ thr < timedeltaDays (now - t))
    ∧ (t = now - thr * 86400 →
        (p, t) ∈ remaining_backups files (identify_old_backups files thr now)) := by
  have hiff := mem_identify_iff files thr now (p, t) hmem hnd
  refine ⟨hiff, fun ht => ?_⟩
  refine (mem_remaining_iff _ _ _).mpr ⟨hmem, fun hold => ?_⟩
  have hlt : thr < timedeltaDays (now - t) := hiff.mp hold
  rw [ht, show now - (now - thr * 86400) = thr * 86400 by ring,
      timedeltaDays, Int.mul_fdiv_cancel thr (by norm_num)] at hlt
  exact lt_irrefl thr hlt

/-- C4 witness: one file aged exactly 30 days against threshold 30. -/
theorem identify_old_strict_threshold_witness :
    ("a.bak" ∈ identify_old_backups [("a.bak", 86400 * 10)] 30 (86400 * 40) ↔
      (30 : Int) < timedeltaDays (86400 * 40 - 86400 * 10))
    ∧ ((86400 * 10 : Timestamp) = 86400 * 40 - 30 * 86400 →
        ("a.bak", (86400 * 10 : Timestamp)) ∈
          remaining_backups [("a.bak", 86400 * 10)]
            (identify_old_backups [("a.bak", 86400 * 10)] 30 (86400 * 40))) :=
  identify_old_strict_threshold [("a.bak", 86400 * 10)] 30 (86400 * 40)
    "a.bak" (86400 * 10) (by simp) (by simp)

/-- C5: with pairwise-distinct discovered paths, the old and kept lists
partition the discovery output: lengths add up, every discovered entry lands
in exactly one of the two, and the two are disjoint. -/
theorem old_kept_partition (files : List (String × Timestamp)) (thr : Int)
    (now : Timestamp) (hnd : (files.map Prod.fst).Nodup) :
    (identify_old_backups files thr now).length
        + (remaining_backups files (identify_old_backups files thr now)).length
      = files.length
    ∧ (∀ b ∈ files,
        (b.1 ∈ identify_old_backups files thr now
            ∧ b ∉ remaining_backups files (identify_old_backups files thr now))
        ∨ (b.1 ∉ identify_old_backups files thr now
            ∧ b ∈ remaining_backups files (identify_old_backups files thr now)))
    ∧ ∀ b ∈ remaining_backups files (identify_old_backups files thr now),
        b.1 ∉ identify_old_backups files thr now := by
  have hmemold : ∀ b ∈ files,
      (b.1 ∈ identify_old_backups files thr now ↔
        thr < timedeltaDays (now - b.2)) :=
    fun b hb => mem_identify_iff files thr now b hb hnd
  refine ⟨?_, ?_, ?_⟩
  · have hcongr : files.filter
          (fun b => !((identify_old_backups files thr now).contains b.1))
        = files.filter
            (fun b => !(decide (thr < timedeltaDays (now - b.2)))) := by
      apply List.filter_congr
      intro b hb
      by_cases hp : thr < timedeltaDays (now - b.2)
      · have h1 : (identify_old_backups files thr now).contains b.1 = true :=
          (contains_iff_mem _ _).mpr ((hmemold b hb).mpr hp)
        rw [h1]
        simp [hp]
      · have h1 : (identify_old_backups files thr now).contains b.1 = false := by
          rw [Bool.eq_false_iff]
          intro hc
          exact hp ((hmemold b hb).mp ((contains_iff_mem _ _).mp hc))
        rw [h1]
        simp [hp]
    have hperm := (List.filter_append_perm
        (fun b : String × Timestamp =>
          decide (thr < timedeltaDays (now - b.2))) files).length_eq
    rw [List.length_append] at hperm
    rw [remaining_backups, hcongr, identify_old_backups, List.length_map]
    exact hperm
  · intro b hb
    by_cases hp : thr < timedeltaDays (now - b.2)
    · have h1 : b.1 ∈ identify_old_backups files thr now := (hmemold b hb).mpr hp
      refine Or.inl ⟨h1, fun habs => ?_⟩
      exact ((mem_remaining_iff _ _ _).mp habs).2 h1
    · have h1 : b.1 ∉ identify_old_backups files thr now :=
        fun habs => hp ((hmemold b hb).mp habs)
      exact Or.inr ⟨h1, (mem_remaining_iff _ _ _).mpr ⟨hb, h1⟩⟩
  · intro b hb
    exact ((mem_remaining_iff _ _ _).mp hb).2

/-- C5 witness: a two-file discovery, one old and one kept. -/
theorem old_kept_partition_witness :
    (identify_old_backups [("a.bak", 0), ("b.bak", 86400 * 39)] 30
        (86400 * 40)).length
        + (remaining_backups [("a.bak", 0), ("b.bak", 86400 * 39)]
            (identify_old_backups [("a.bak", 0), ("b.bak", 86400 * 39)] 30
              (86400 * 40))).length
      = ([("a.bak", (0 : Timestamp)), ("b.bak", 86400 * 39)]).length
    ∧ (∀ b ∈ [("a.bak", (0 : Timestamp)), ("b.bak", 86400 * 39)],
        (b.1 ∈ identify_old_backups [("a.bak", 0), ("b.bak", 86400 * 39)] 30
            (86400 * 40)
          ∧ b ∉ remaining_backups [("a.bak", 0), ("b.bak", 86400 * 39)]
              (identify_old_backups [("a.bak", 0), ("b.bak", 86400 * 39)] 30
                (86400 * 40)))
        ∨ (b.1 ∉ identify_old_backups [("a.bak", 0), ("b.bak", 86400 * 39)] 30
            (86400 * 40)
          ∧ b ∈ remaining_backups [("a.bak", 0), ("b.bak", 86400 * 39)]
              (identify_old_backups [("a.bak", 0), ("b.bak", 86400 * 39)] 30
                (86400 * 40))))
    ∧ ∀ b ∈ remaining_backups [("a.bak", 0), ("b.bak", 86400 * 39)]
          (identify_old_backups [("a.bak", 0), ("b.bak", 86400 * 39)] 30
            (86400 * 40)),
        b.1 ∉ identify_old_backups [("a.bak", 0), ("b.bak", 86400 * 39)] 30
          (86400 * 40) :=
  old_kept_partition [("a.bak", 0), ("b.bak", 86400 * 39)] 30 (86400 * 40)
    (by simp)

/-- C2 (refuted on the code): reclaimed bytes are not pre-removal sizes of
the successful outcomes.  Run one: a file whose removal fails stays on disk
and its 100 bytes are still summed into the total (the claim demands 0).
Run two: a file that was actually removed makes the report-time size probe
raise `OSError`, so no total is produced at all. -/
theorem reclaimed_bytes_not_outcome_based :
    (delete_backups [("a.bak", 100)] (fun _ => true) ["a.bak"] false
        = ([("a.bak", 100)], [LogEntry.errorDeleting "a.bak"])
      ∧ generate_report [("a.bak", 100)] ["a.bak"] []
        = ([LogEntry.reportHeader, LogEntry.reportDeletedCount 1,
            LogEntry.reportTotalSize 100, LogEntry.reportRemainingCount 0],
           some PyError.valueError))
    ∧ (delete_backups [("b.bak", 50)] (fun _ => false) ["b.bak"] false
        = ([], [LogEntry.deleted "b.bak"])
      ∧ generate_report [] ["b.bak"] []
        = ([LogEntry.reportHeader, LogEntry.reportDeletedCount 1],
           some PyError.osError)) :=
  ⟨⟨rfl, rfl⟩, rfl, rfl⟩

/-- C6 (refuted on the code): a failed deletion is not counted separately:
the reported deleted count is `len(old_backups)`, so the 7-byte file whose
removal failed (it is still on disk afterwards) is counted as deleted and
its size is included in the total. -/
theorem failed_deletion_counted_as_deleted :
    (delete_backups [("c.bak", 7)] (fun _ => true) ["c.bak"] false).1
        = [("c.bak", 7)]
    ∧ FS.existsPath
        (delete_backups [("c.bak", 7)] (fun _ => true) ["c.bak"] false).1
        "c.bak" = true
    ∧ generate_report
        (delete_backups [("c.bak", 7)] (fun _ => true) ["c.bak"] false).1
        ["c.bak"] []
        = ([LogEntry.reportHeader, LogEntry.reportDeletedCount 1,
            LogEntry.reportTotalSize 7, LogEntry.reportRemainingCount 0],
           some PyError.valueError) :=
  ⟨rfl, rfl, rfl⟩

/-- C3 (refuted on the code): a missing or non-directory root is never
checked.  `os.walk` silently yields nothing, the whole pipeline runs on
empty lists — no filesystem mutation — and the process dies much later with
`ValueError` inside `generate_report`, not with an immediate configuration
error. -/
theorem missing_root_no_config_error (w : World) (root : String) (thr : Int)
    (now : Timestamp) (h : w.dirExists root = false) :
    main_run w root thr false now =
      (w.files,
       [LogEntry.startingCleanup root, LogEntry.ageThresholdLine thr,
        LogEntry.dryRunLine false, LogEntry.totalFound 0,
        LogEntry.identifiedCount 0, LogEntry.reportHeader,
        LogEntry.reportDeletedCount 0, LogEntry.reportTotalSize 0,
        LogEntry.reportRemainingCount 0],
       some PyError.valueError) := by
  simp [main_run, get_backup_files, h, identify_old_backups, delete_backups,
        remaining_backups, generate_report, sizeTotal]

/-- C3 witness world: one backup on disk, no root directory anywhere. -/
def worldNoRoot : World :=
  ⟨[("a.bak", 100)], fun _ => 0, fun _ => false, fun _ _ => true,
   fun _ => false⟩

/-- C3 witness: the concrete run against the missing root. -/
theorem missing_root_no_config_error_witness :
    main_run worldNoRoot "/backups" 30 false 0 =
      ([("a.bak", 100)],
       [LogEntry.startingCleanup "/backups", LogEntry.ageThresholdLine 30,
        LogEntry.dryRunLine false, LogEntry.totalFound 0,
        LogEntry.identifiedCount 0, LogEntry.reportHeader,
        LogEntry.reportDeletedCount 0, LogEntry.reportTotalSize 0,
        LogEntry.reportRemainingCount 0],
       some PyError.valueError) :=
  missing_root_no_config_error worldNoRoot "/backups" 30 0 rfl

/-- C8: a denied (failing) removal in the middle of the list logs an error
line and never aborts: the executor still runs over the whole suffix,
emitting exactly one per-file line per remaining path, in order. -/
theorem failure_does_not_abort (fs : FS) (denied : String → Bool)
    (l1 l2 : List String) (p : String) (hden : denied p = true) :
    ∃ fsMid logPre,
      delete_backups fs denied (l1 ++ p :: l2) false
        = ((delete_backups fsMid denied l2 false).1,
           logPre ++ LogEntry.errorDeleting p ::
             (delete_backups fsMid denied l2 false).2)
      ∧ logPre.filterMap deleteEntryPath = l1
      ∧ (delete_backups fsMid denied l2 false).2.filterMap deleteEntryPath
          = l2 := by
  refine ⟨(delete_backups fs denied l1 false).1,
          (delete_backups fs denied l1 false).2, ?_, ?_, ?_⟩
  · rw [delete_backups_append]
    have hb : (FS.existsPath (delete_backups fs denied l1 false).1 p
        && !denied p) = false := by
      simp [hden]
    simp [delete_backups, hb]
  · exact delete_backups_log_paths denied l1 fs false
  · exact delete_backups_log_paths denied l2
      (delete_backups fs denied l1 false).1 false

/-- C8 witness: removal of the first file fails, the second is still
processed. -/
theorem failure_does_not_abort_witness :
    ∃ fsMid logPre,
      delete_backups [("a.bak", 1), ("b.bak", 2)] (fun q => q == "a.bak")
          ([] ++ "a.bak" :: ["b.bak"]) false
        = ((delete_backups fsMid (fun q => q == "a.bak") ["b.bak"] false).1,
           logPre ++ LogEntry.errorDeleting "a.bak" ::
             (delete_backups fsMid (fun q => q == "a.bak") ["b.bak"]
               false).2)
      ∧ logPre.filterMap deleteEntryPath = []
      ∧ (delete_backups fsMid (fun q => q == "a.bak") ["b.bak"]
            false).2.filterMap deleteEntryPath = ["b.bak"] :=
  failure_does_not_abort [("a.bak", 1), ("b.bak", 2)] (fun q => q == "a.bak")
    [] ["b.bak"] "a.bak" (by decide)

/-- C10: after a non-dry run that actually removed a file, `generate_report`
probes the current on-disk sizes, the probe on the removed path raises
`OSError`, and the run stops before any size / remaining / oldest / newest
line: the log carries no `reportTotalSize` entry at all. -/
theorem report_probes_sizes_after_deletion (w : World) (root p : String)
    (thr : Int) (now : Timestamp)
    (hdir : w.dirExists root = true)
    (hex : FS.existsPath w.files p = true)
    (hunder : w.under root p = true)
    (hsuf : endswith p ".bak" = true)
    (hold : thr < timedeltaDays (now - w.ctime p))
    (hden : w.denied p = false) :
    ∃ fs1 log,
      main_run w root thr false now = (fs1, log, some PyError.osError)
      ∧ FS.existsPath fs1 p = false
      ∧ ∀ n, LogEntry.reportTotalSize n ∉ log := by
  have hdisc : (p, w.ctime p) ∈ get_backup_files w root :=
    mem_get_backup_files w root p hdir hex hunder hsuf
  have hpold : p ∈ identify_old_backups (get_backup_files w root) thr now :=
    mem_identify_of (get_backup_files w root) thr now (p, w.ctime p) hdisc
      (by simpa using hold)
  have hgone : FS.existsPath
      (delete_backups w.files w.denied
        (identify_old_backups (get_backup_files w root) thr now) false).1 p
      = false :=
    delete_backups_removes w.denied
      (identify_old_backups (get_backup_files w root) thr now) w.files p
      hpold hden
  have hsz : sizeTotal
      (delete_backups w.files w.denied
        (identify_old_backups (get_backup_files w root) thr now) false).1
      (identify_old_backups (get_backup_files w root) thr now) = none :=
    sizeTotal_none_of_missing _ _ p hpold hgone
  have hrep : generate_report
      (delete_backups w.files w.denied
        (identify_old_backups (get_backup_files w root) thr now) false).1
      (identify_old_backups (get_backup_files w root) thr now)
      (remaining_backups (get_backup_files w root)
        (identify_old_backups (get_backup_files w root) thr now))
      = ([LogEntry.reportHeader,
          LogEntry.reportDeletedCount
            (identify_old_backups (get_backup_files w root) thr now).length],
         some PyError.osError) := by
    simp [generate_report, hsz]
  refine ⟨(delete_backups w.files w.denied
      (identify_old_backups (get_backup_files w root) thr now) false).1,
    [LogEntry.startingCleanup root, LogEntry.ageThresholdLine thr,
     LogEntry.dryRunLine false,
     LogEntry.totalFound (get_backup_files w root).length,
     LogEntry.identifiedCount
       (identify_old_backups (get_backup_files w root) thr now).length]
      ++ (delete_backups w.files w.denied
          (identify_old_backups (get_backup_files w root) thr now) false).2
      ++ [LogEntry.reportHeader,
          LogEntry.reportDeletedCount
            (identify_old_backups (get_backup_files w root) thr now).length],
    ?_, hgone, ?_⟩
  · simp only [main_run, hrep, Option.isNone_some, Bool.false_eq_true,
      if_false, List.append_nil]
  · intro n hmem
    rw [List.mem_append, List.mem_append] at hmem
    rcases hmem with (h5 | hdel) | htl
    · simp at h5
    · rcases delete_backups_log_shape w.denied
        (identify_old_backups (get_backup_files w root) thr now) w.files
        false _ hdel with ⟨q, hq⟩
      simp [deleteEntryPath] at hq
    · simp at htl

/-- C10 witness world: one old backup under an existing root, removable. -/
def worldOneOld : World :=
  ⟨[("a.bak", 100)], fun _ => 0, fun _ => true, fun _ _ => true,
   fun _ => false⟩

/-- C10 witness: the concrete run whose report dies probing the removed
file. -/
theorem report_probes_sizes_after_deletion_witness :
    ∃ fs1 log,
      main_run worldOneOld "/backups" 30 false (86400 * 40)
        = (fs1, log, some PyError.osError)
      ∧ FS.existsPath fs1 "a.bak" = false
      ∧ ∀ n, LogEntry.reportTotalSize n ∉ log :=
  report_probes_sizes_after_deletion worldOneOld "/backups" "a.bak" 30
    (86400 * 40) rfl (by decide) rfl (by decide) (by decide) rfl
